import Mathlib

/- Verification of the VCT Dashboard CSV import pipeline.

   Strings are modeled as lists of characters.  The Python functions of
   scripts/import_to_sqlite.py, scripts/import_large_files.py and utils.py
   are embedded as Lean functions over this model; the database is modeled
   as an association list of tables together with an explicit
   committed/current pair mirroring the sqlite transaction state. -/

namespace VCT

/-- Strings are modeled as lists of characters. -/
abbrev Str := List Char

/-- Characters matched by the regex class [a-zA-Z0-9_]. -/
def isAlnumU (c : Char) : Bool := c.isAlpha || c.isDigit || c == '_'

/-- Model of the default whitespace set stripped by str.strip (ASCII part;
    all proofs only use that whitespace characters are not alphanumeric). -/
def isPySpace (c : Char) : Bool :=
  c == ' ' || c == '\t' || c == '\n' || c == '\r' || c == '\x0b' || c == '\x0c'

/-- The underscore test used by str.strip applied with argument und. -/
def isUnd (c : Char) : Bool := c == '_'

/-- re.sub of the class complement: replace every character outside
    [a-zA-Z0-9_] with an underscore. -/
def replaceChar (c : Char) : Char := if isAlnumU c then c else '_'

/-- re.sub collapsing every run of underscores to a single underscore. -/
def collapseU : Str → Str
  | [] => []
  | [c] => [c]
  | a :: b :: rest =>
    if a = '_' ∧ b = '_' then collapseU (b :: rest) else a :: collapseU (b :: rest)

/-- Remove trailing characters satisfying p. -/
def dropTrailing (p : Char → Bool) (l : Str) : Str :=
  (l.reverse.dropWhile p).reverse

/-- str.strip: remove characters satisfying p from both ends. -/
def stripWith (p : Char → Bool) (l : Str) : Str :=
  (dropTrailing p l).dropWhile p

/-- str.strip applied with an underscore argument. -/
def stripU (l : Str) : Str := stripWith isUnd l

/-- The fixed prefix prepended when a sanitized name would lead with a digit. -/
def colPre : Str := ['c', 'o', 'l', '_']

/-- The fixed placeholder substituted for an empty sanitized name. -/
def unnamedColumn : Str :=
  ['u', 'n', 'n', 'a', 'm', 'e', 'd', '_', 'c', 'o', 'l', 'u', 'm', 'n']

/-- The last three steps shared by sanitize_column_name and its contract:
    prepend the digit-guard literal, substitute the empty-name placeholder,
    lowercase. -/
def finishName (base : Str) : Str :=
  let pre :=
    match base with
    | c :: _ => if c.isDigit then colPre ++ base else base
    | [] => []
  let named := if pre = [] then unnamedColumn else pre
  named.map Char.toLower

/-- sanitize_column_name from scripts/import_to_sqlite.py lines 61-75; the
    code in scripts/import_large_files.py lines 103-113 is identical. -/
def sanitize_column_name (s : Str) : Str :=
  finishName (stripU (collapseU ((stripWith isPySpace s).map replaceChar)))

/-- The sanitize contract exactly as the claim words it: replace, collapse,
    strip underscores, digit guard, empty fallback, lowercase — with no
    initial whitespace strip. -/
def sanitizeSpec (s : Str) : Str :=
  finishName (stripU (collapseU (s.map replaceChar)))

/-- generate_table_name from scripts/import_to_sqlite.py lines 77-93 (the
    copy in scripts/import_large_files.py is identical), abstracted over the
    already-split relative path: directory parts plus the filename stem. -/
def generate_table_name (parts : List Str) (stem : Str) : Str :=
  let joined := List.intercalate ['_'] (parts ++ [stem])
  (stripU (collapseU (joined.map replaceChar))).map Char.toLower

/-- The table-naming rules exactly as the claim words them, minus any
    digit-leading guard: join with underscores and apply the sanitize
    character rules. -/
def tableNameSpec (parts : List Str) (stem : Str) : Str :=
  (stripU (collapseU ((List.intercalate ['_'] (parts ++ [stem])).map
    replaceChar))).map Char.toLower

/-- Fuel-driven decimal-digit writer; the fuel only forces structural
    recursion and never runs out when it exceeds the number. -/
def natCharsAux : Nat → Nat → Str
  | 0, _ => []
  | fuel + 1, n =>
    if n < 10 then [Char.ofNat (48 + n)]
    else natCharsAux fuel (n / 10) ++ [Char.ofNat (48 + n % 10)]

/-- Decimal digits of a natural number (value of the Python f-string used to
    build duplicate-column suffixes). -/
def natChars (n : Nat) : Str := natCharsAux (n + 1) n

/-- First-match lookup in an association list, modeling the Python dict
    seen_cols (later insertions shadow earlier ones). -/
def alookup (c : Str) : List (Str × Nat) → Option Nat
  | [] => none
  | (k, v) :: rest => if k = c then some v else alookup c rest

/-- The duplicate-column-name loop of import_csv_file (lines 186-195 of
    scripts/import_to_sqlite.py; lines 208-217 of
    scripts/import_large_files.py): a recurring name gets suffixes _1, _2, …
    while the first occurrence keeps the bare name. -/
def dedupGo (seen : List (Str × Nat)) : List Str → List Str
  | [] => []
  | c :: cs =>
    match alookup c seen with
    | some n => (c ++ '_' :: natChars (n + 1)) :: dedupGo ((c, n + 1) :: seen) cs
    | none => c :: dedupGo ((c, 0) :: seen) cs

/-- The full de-duplication pass over a schema's sanitized column names. -/
def dedupCols (cols : List Str) : List Str := dedupGo [] cols

/-- Digit run continuation with Python's underscore rule:
    ( digit | underscore digit )*.  With uscores set to false (the pandas
    numeric parser) underscores are rejected. -/
def digitsTail (uscores : Bool) : Str → Bool
  | [] => true
  | '_' :: c :: cs => uscores && c.isDigit && digitsTail uscores cs
  | ['_'] => false
  | c :: cs => c.isDigit && digitsTail uscores cs

/-- Nonempty digit run: digit ( underscore? digit )*. -/
def digitsCore (uscores : Bool) : Str → Bool
  | [] => false
  | c :: cs => c.isDigit && digitsTail uscores cs

/-- Model of the Python built-in int applied to an already-stripped string:
    optional sign followed by a nonempty decimal digit run. -/
def pyIntParses (s : Str) : Bool :=
  match s with
  | '+' :: t => digitsCore true t
  | '-' :: t => digitsCore true t
  | t => digitsCore true t

/-- Decimal value of a digit run, skipping grouping underscores. -/
def digitsVal (s : Str) : Nat :=
  s.foldl (fun a c => if c = '_' then a else 10 * a + (c.toNat - 48)) 0

/-- Result of parsing a Python float literal: a finite value is kept exactly
    as mant * 10 ^ exp10 (binary float rounding is abstracted away; it does
    not affect integrality for the literals the importer meets). -/
inductive PyFloat where
  | finite (mant : Int) (exp10 : Int)
  | infinite
  | nan
deriving DecidableEq

/-- Lowercased copy of a string. -/
def toLowerStr (s : Str) : Str := s.map Char.toLower

/-- Number of digits in a digit run, not counting grouping underscores. -/
def digitCount (s : Str) : Nat := (s.filter (fun c => !(c == '_'))).length

/-- Unsigned part of the Python float grammar: inf, infinity and nan
    case-insensitively, or mantissa digits with at most one dot and an
    optional exponent. -/
def parseFloatMag (uscores : Bool) (s : Str) : Option PyFloat :=
  if toLowerStr s = ['i', 'n', 'f'] ∨
      toLowerStr s = ['i', 'n', 'f', 'i', 'n', 'i', 't', 'y'] then
    some .infinite
  else if toLowerStr s = ['n', 'a', 'n'] then some .nan
  else
    let mant := s.takeWhile (fun c => !(c == 'e' || c == 'E'))
    let rest := s.dropWhile (fun c => !(c == 'e' || c == 'E'))
    let expVal : Option Int :=
      match rest with
      | [] => some 0
      | _ :: et =>
        match et with
        | '+' :: d => if digitsCore uscores d then some ((digitsVal d : Int)) else none
        | '-' :: d => if digitsCore uscores d then some (-(digitsVal d : Int)) else none
        | d => if digitsCore uscores d then some ((digitsVal d : Int)) else none
    match expVal with
    | none => none
    | some e =>
      let ip := mant.takeWhile (fun c => !(c == '.'))
      let restf := mant.dropWhile (fun c => !(c == '.'))
      match restf with
      | [] => if digitsCore uscores ip then some (.finite (digitsVal ip) e) else none
      | _ :: fp =>
        if (ip = [] ∨ digitsCore uscores ip) ∧ (fp = [] ∨ digitsCore uscores fp) ∧
            ¬(ip = [] ∧ fp = []) then
          some (.finite ((digitsVal ip) * 10 ^ digitCount fp + digitsVal fp)
            (e - digitCount fp))
        else none

/-- Model of the Python built-in float applied to an already-stripped
    string: optional sign then the unsigned grammar. -/
def pyFloatParse (uscores : Bool) (s : Str) : Option PyFloat :=
  match s with
  | '+' :: t => parseFloatMag uscores t
  | '-' :: t =>
    (parseFloatMag uscores t).map fun f =>
      match f with
      | .finite m e => .finite (-m) e
      | other => other
  | t => parseFloatMag uscores t

/-- float(s) succeeds. -/
def pyFloatParses (s : Str) : Bool := (pyFloatParse true s).isSome

/-- float(s).is_integer(): true exactly for finite values with no
    fractional part. -/
def pyFloatIsInteger (s : Str) : Bool :=
  match pyFloatParse true s with
  | some (.finite m e) =>
    if 0 ≤ e then true else decide (m % (10 : Int) ^ (-e).toNat = 0)
  | _ => false

/-- pd.to_numeric succeeds on the element: the pandas numeric parser, which
    accepts surrounding whitespace but no grouping underscores. -/
def pdNumericParses (s : Str) : Bool :=
  (pyFloatParse false (stripWith isPySpace s)).isSome

/-- The three SQLite column types the importer distinguishes. -/
inductive SqlType where
  | integer
  | real
  | text
deriving DecidableEq

/-- The non-null filter of infer_column_type (line 98 of
    scripts/import_to_sqlite.py): drop missing values and values that are
    blank after stripping. -/
def nonNullVals (values : List (Option Str)) : List Str :=
  (values.filterMap id).filter (fun v => !(stripWith isPySpace v).isEmpty)

/-- The sampling loop of infer_column_type (lines 107-123): fold the two
    all-flags over the first hundred values with the early break once both
    are false. -/
def inferScan : List Str → Bool → Bool → Bool × Bool
  | [], ai, af => (ai, af)
  | v :: vs, ai, af =>
    let sv := stripWith isPySpace v
    let ai2 := ai && pyIntParses sv
    let af2 := af && pyFloatParses sv
    if !ai2 && !af2 then (ai2, af2) else inferScan vs ai2 af2

/-- infer_column_type from scripts/import_to_sqlite.py lines 95-130. -/
def infer_column_type (values : List (Option Str)) : SqlType :=
  let nn := nonNullVals values
  if nn.isEmpty then .text
  else
    let p := inferScan (nn.take 100) true true
    if p.1 then .integer else if p.2 then .real else .text

/-- infer_column_type from scripts/import_large_files.py lines 132-156: a
    column is INTEGER when pd.to_numeric succeeds on every non-null value
    and the first hundred all have integral float value, REAL when
    pd.to_numeric succeeds at all, TEXT otherwise. -/
def infer_column_type_large (values : List (Option Str)) : SqlType :=
  let nn := values.filterMap id
  if nn.isEmpty then .text
  else if nn.all pdNumericParses && (nn.take 100).all pyFloatIsInteger then .integer
  else if nn.all pdNumericParses then .real
  else .text

/-- The type-inference contract exactly as the claim words it: all-null is
    Text, Integer when every sampled value parses as an integer literal,
    Real when every sampled value parses as a float literal, Text
    otherwise. -/
def inferSpec (values : List (Option Str)) : SqlType :=
  let nn := nonNullVals values
  if nn.isEmpty then .text
  else if (nn.take 100).all (fun v => pyIntParses (stripWith isPySpace v)) then .integer
  else if (nn.take 100).all (fun v => pyFloatParses (stripWith isPySpace v)) then .real
  else .text

/-- A database row: cells which may be missing. -/
abbrev Row := List (Option Str)

/-- A persisted table: its column names and its rows in insertion order.
    (Column storage types are inferred by infer_column_type and do not
    affect the state-transition claims, so they are not carried here.) -/
structure Table where
  cols : List Str
  rows : List Row
deriving DecidableEq

/-- The sqlite connection state: the durable (committed) tables and the
    tables as the connection's open transaction sees them. -/
structure Db where
  committed : List (Str × Table)
  current : List (Str × Table)
deriving DecidableEq

/-- connection.commit(): the in-transaction state becomes durable. -/
def commitDb (db : Db) : Db := ⟨db.current, db.current⟩

/-- connection.rollback(): uncommitted changes are discarded. -/
def rollbackDb (db : Db) : Db := ⟨db.committed, db.committed⟩

/-- Find a table by name. -/
def lookupTable (tn : Str) : List (Str × Table) → Option Table
  | [] => none
  | (k, t) :: rest => if k = tn then some t else lookupTable tn rest

/-- DROP TABLE IF EXISTS followed by CREATE TABLE: any table of that name
    is replaced by an empty one with the given columns. -/
def resetTable (tn : Str) (cols : List Str) (ts : List (Str × Table)) :
    List (Str × Table) :=
  (tn, ⟨cols, []⟩) :: ts.filter (fun p => decide (p.1 ≠ tn))

/-- df.to_sql with if_exists set to append: add rows to the named table. -/
def appendRows (tn : Str) (rs : List Row) (ts : List (Str × Table)) :
    List (Str × Table) :=
  ts.map (fun p => if p.1 = tn then (p.1, ⟨p.2.cols, p.2.rows ++ rs⟩) else p)

/-- SELECT COUNT(*) FROM tn. -/
def countRows (tn : Str) (ts : List (Str × Table)) : Nat :=
  match lookupTable tn ts with
  | some t => t.rows.length
  | none => 0

/-- Outcome of one pd.read_csv attempt under one encoding. -/
inductive ReadRes where
  | ok (cols : List Str) (rows : List Row)
  | ude
  | err
deriving DecidableEq

/-- The encoding loop of import_csv_file (lines 156-175 of
    scripts/import_to_sqlite.py): a UnicodeDecodeError moves to the next
    encoding, any other exception aborts the file (outer none), and a loop
    that exhausts every encoding leaves df as None (inner none). -/
def readLoop : List ReadRes → Option (Option (List Str × List Row))
  | [] => some none
  | .ok c r :: _ => some (some (c, r))
  | .ude :: rest => readLoop rest
  | .err :: _ => none

/-- A source file as the full importer sees it: the pd.read_csv outcomes
    for the four encodings tried in order, and whether the df.to_sql
    insert fails.  With method set to multi and no chunksize, df.to_sql
    issues one all-or-nothing multi-row INSERT, so a write failure is a
    single flag — no prefix of rows can survive it. -/
structure SrcFile where
  reads : List ReadRes
  writeFails : Bool
deriving DecidableEq

/-- import_csv_file from scripts/import_to_sqlite.py lines 147-223, as a
    state transition on the connection: read with the encoding loop, skip
    empty frames, sanitize and de-duplicate the header, drop and recreate
    the destination table, insert all rows.  DROP TABLE and CREATE TABLE
    are DDL: the sqlite3 module issues no implicit BEGIN for them, so with
    no transaction open they run in autocommit mode and are durable at
    once.  df.to_sql runs its single INSERT inside pandas'
    run_transaction, which commits the connection on success and rolls it
    back on failure — so a failed write leaves the freshly recreated table
    empty and nothing uncommitted, and the except handler at lines 221-223
    then reports False for the file. -/
def import_csv_file (f : SrcFile) (tn : Str) (db : Db) : Bool × Db :=
  match readLoop f.reads with
  | none => (false, db)
  | some none => (false, db)
  | some (some (cols, rows)) =>
    if rows.isEmpty then (false, db)
    else
      let finalCols := dedupCols (cols.map sanitize_column_name)
      let cur1 := resetTable tn finalCols db.current
      if f.writeFails then (false, ⟨cur1, cur1⟩)
      else (true, commitDb ⟨cur1, appendRows tn rows cur1⟩)

/-- The per-file loop of run_import (lines 366-370 of
    scripts/import_to_sqlite.py): every file is processed and its outcome
    collected; a failed file never stops the loop. -/
def run_import_files : List (SrcFile × Str) → Db → List Bool × Db
  | [], db => ([], db)
  | (f, tn) :: rest, db =>
    let r := import_csv_file f tn db
    let rs := run_import_files rest r.2
    (r.1 :: rs.1, rs.2)

/-- Fuel-driven chunking; the fuel is the list length, which always
    suffices because every step consumes at least one element. -/
def chunkAux (m : Nat) : Nat → List α → List (List α)
  | 0, _ => []
  | _, [] => []
  | fuel + 1, x :: xs => (x :: xs.take m) :: chunkAux m fuel (xs.drop m)

/-- pd.read_csv with chunksize m+1: the rows cut into windows of m+1
    rows (the last window may be shorter). -/
def chunkRows (m : Nat) (l : List α) : List (List α) := chunkAux m l.length l

/-- A source file as the large-file importer sees it.  Each data row
    carries a flag telling whether its bytes decode as UTF-8 (latin-1
    decoding never fails); the decoded cell values are identified across
    encodings since only row identity and multiplicity matter here. -/
structure BigFile where
  fileExists : Bool
  sampleOtherError : Bool
  headers : List Str
  headerUtf8 : Bool
  rows : List (Row × Bool)
  writeFail : Option Nat
deriving DecidableEq

/-- Error exits of one streaming pass: a UnicodeDecodeError carrying the
    state reached, or a store write error. -/
inductive PassErr where
  | decodeErr (db : Db) (ord : Nat)
  | writeErr (db : Db)
deriving DecidableEq

/-- One streaming pass over the windows (the for loop at lines 234-246 of
    scripts/import_large_files.py, also reused for the latin-1 retry at
    lines 255-263).  Each chunk_df.to_sql runs inside pandas'
    run_transaction, which commits the raw sqlite3 connection right after
    the chunk's INSERT — every appended window is durable immediately, and
    the explicit connection.commit() after every tenth window is a no-op
    kept only for source fidelity.  A failing chunk INSERT is rolled back
    by pandas before the exception propagates, so none of its rows remain.
    With checkUtf8 set, a window holding a non-UTF-8 row raises before
    being appended.  The ord counter numbers append attempts across both
    passes so a single injected write failure can be placed. -/
def runWindows (checkUtf8 : Bool) (wfail : Option Nat) (tn : Str) :
    List (List (Row × Bool)) → Db → Nat → Nat → Nat → PassErr ⊕ (Db × Nat)
  | [], db, _, total, _ => .inr (db, total)
  | w :: ws, db, chunkNum, total, ord =>
    if checkUtf8 && !(w.all (fun r => r.2)) then .inl (.decodeErr db ord)
    else if wfail = some ord then .inl (.writeErr db)
    else
      let db2 : Db :=
        commitDb ⟨db.committed, appendRows tn (w.map (fun r => r.1)) db.current⟩
      let cn := chunkNum + 1
      let db3 := if cn % 10 = 0 then commitDb db2 else db2
      runWindows checkUtf8 wfail tn ws db3 cn (total + w.length) (ord + 1)

/-- import_csv_in_batches from scripts/import_large_files.py lines 173-286,
    with window size m+1: sample-read guards, drop and recreate the table
    (DDL in autocommit mode, so durable at once), stream in windows under
    UTF-8; a mid-stream UnicodeDecodeError starts a latin-1 pass over the
    whole file without clearing what the first pass appended (lines
    248-263); any other error fails the file — the except handler's
    connection.rollback() at line 285 finds nothing uncommitted, since
    every chunk was committed by pandas as it was appended.  On success the
    reported count is a fresh COUNT(*). -/
def import_csv_in_batches (m : Nat) (f : BigFile) (tn : Str) (db : Db) :
    Bool × Nat × Db :=
  if !f.fileExists then (false, 0, db)
  else if f.sampleOtherError then (false, 0, db)
  else if f.rows.isEmpty then (false, 0, db)
  else
    let colMapping := dedupCols (f.headers.map sanitize_column_name)
    let cur1 := resetTable tn colMapping db.current
    let db1 : Db := ⟨cur1, cur1⟩
    let windows := chunkRows m f.rows
    let pass1 :=
      if f.headerUtf8 then runWindows true f.writeFail tn windows db1 0 0 0
      else .inl (.decodeErr db1 0)
    match pass1 with
    | .inr (db2, _) =>
      let db3 := commitDb db2
      (true, countRows tn db3.current, db3)
    | .inl (.decodeErr db2 ord) =>
      match runWindows false f.writeFail tn windows db2 0 0 ord with
      | .inr (db4, _) =>
        let db5 := commitDb db4
        (true, countRows tn db5.current, db5)
      | .inl (.writeErr db4) => (false, 0, rollbackDb db4)
      | .inl (.decodeErr db4 _) => (false, 0, rollbackDb db4)
    | .inl (.writeErr db2) => (false, 0, rollbackDb db2)

/-- The per-file loop of the large-file run_import (lines 351-356 of
    scripts/import_large_files.py). -/
def run_large_files (m : Nat) : List (BigFile × Str) → Db → List Bool × Db
  | [], db => ([], db)
  | (f, tn) :: rest, db =>
    let r := import_csv_in_batches m f tn db
    let rs := run_large_files m rest r.2.2
    (r.1 :: rs.1, rs.2)

/-- One row of the import_metadata table. -/
structure MetaRec where
  table : Str
  source : Str
  row_count : Nat
  column_count : Nat
  stamp : Str
deriving DecidableEq

/-- create_metadata_table from scripts/import_to_sqlite.py lines 241-277:
    DROP TABLE IF EXISTS import_metadata, recreate it, then insert one row
    per table imported in this run — the prior contents are discarded. -/
def create_metadata_table (imported : List MetaRec) (_meta : List MetaRec) :
    List MetaRec :=
  imported

/-- One INSERT OR REPLACE INTO import_metadata: the UNIQUE(table_name)
    constraint makes the replace delete any existing row with the same
    table name before inserting the new row. -/
def upsertMeta (m : List MetaRec) (r : MetaRec) : List MetaRec :=
  (m.filter (fun q => decide (q.table ≠ r.table))) ++ [r]

/-- update_metadata_table from scripts/import_large_files.py lines 288-309:
    one upsert per imported file, in order. -/
def update_metadata_table (imported : List MetaRec) (meta : List MetaRec) :
    List MetaRec :=
  imported.foldl upsertMeta meta

/-- A query result: the column names and rows of the pandas frame returned
    by pd.read_sql_query. -/
structure Frame where
  cols : List Str
  rows : List Row
deriving DecidableEq

/-- pd.DataFrame(): the empty frame returned on every failure path. -/
def emptyFrame : Frame := ⟨[], []⟩

/-- SELECT … LIMIT n semantics: sqlite treats a negative limit as no
    limit. -/
def applyLimit (lim : Int) (rows : List Row) : List Row :=
  if 0 ≤ lim then rows.take lim.toNat else rows

/-- The query built by load_table_from_db: the LIMIT clause is appended
    only when the Python limit argument is truthy, so None and 0 both mean
    no clause; an unknown table makes sqlite raise, modeled as none. -/
def runSelect (s : List (Str × Table)) (tn : Str) (lim : Option Int) :
    Option Frame :=
  match lookupTable tn s with
  | none => none
  | some t =>
    match lim with
    | none => some ⟨t.cols, t.rows⟩
    | some n => if n = 0 then some ⟨t.cols, t.rows⟩ else some ⟨t.cols, applyLimit n t.rows⟩

/-- load_table_from_db from utils.py lines 45-69: a missing database file
    yields an empty frame (conn is None), and any query failure is caught
    and yields an empty frame. -/
def load_table_from_db (dbFile : Option (List (Str × Table))) (tn : Str)
    (lim : Option Int) : Frame :=
  match dbFile with
  | none => emptyFrame
  | some s =>
    match runSelect s tn lim with
    | some fr => fr
    | none => emptyFrame

/-- The name of the bookkeeping table excluded from listings. -/
def metadataTableName : Str := "import_metadata".toList

/-- Python string comparison on our character lists: lexicographic by code
    point. -/
def lexLe : Str → Str → Bool
  | [], _ => true
  | _ :: _, [] => false
  | c :: cs, d :: ds =>
    if c.toNat < d.toNat then true
    else if d.toNat < c.toNat then false
    else lexLe cs ds

/-- Insertion into a sorted list. -/
def insertLe (x : Str) : List Str → List Str
  | [] => [x]
  | y :: ys => if lexLe x y then x :: y :: ys else y :: insertLe x ys

/-- Model of the Python sorted built-in on strings. -/
def sortStrs : List Str → List Str
  | [] => []
  | x :: xs => insertLe x (sortStrs xs)

/-- get_available_tables from utils.py lines 141-154: a missing database
    yields the empty list; otherwise the sorted table names except the
    metadata table. -/
def get_available_tables (dbFile : Option (List (Str × Table))) : List Str :=
  match dbFile with
  | none => []
  | some s =>
    sortStrs ((s.map (fun p => p.1)).filter (fun n => decide (n ≠ metadataTableName)))

/-- A name carries a decimal suffix: it ends in an underscore followed by a
    nonempty digit run — exactly the shapes the de-duplication loop
    generates, so a sanitized name of this shape can collide with a
    generated one. -/
def hasNumSuffix (n : Str) : Bool :=
  !(n.reverse.takeWhile Char.isDigit).isEmpty &&
    ((n.reverse.dropWhile Char.isDigit).head? == some '_')

/-- The name emitted for the j-th occurrence (0-based) of a sanitized
    column name: the first occurrence keeps the bare name, later ones get
    the decimal suffix. -/
def renderName (c : Str) (j : Nat) : Str :=
  if j = 0 then c else c ++ '_' :: natChars j

/-- How many occurrences of the name the seen_cols dictionary has already
    recorded. -/
def cntSeen (seen : List (Str × Nat)) (c : Str) : Nat :=
  match alookup c seen with
  | some n => n + 1
  | none => 0

/-- A storage-safe identifier character: lowercase letter, digit or
    underscore. -/
def goodChar (c : Char) : Bool :=
  (97 ≤ c.toNat && c.toNat ≤ 122) || c.isDigit || c == '_'

/-- A storage-safe identifier: nonempty, not digit-leading, all characters
    lowercase alphanumeric or underscore. -/
def goodName (x : Str) : Bool :=
  (match x with
   | [] => false
   | c :: _ => !c.isDigit) && x.all goodChar

/-- Decimal value of a pure digit string, used to show the digit writer is
    injective. -/
def evalDigits (l : Str) : Nat := l.foldl (fun a c => 10 * a + (c.toNat - 48)) 0

/-- The full importer's pre-table failure condition: the encoding loop ends
    with no frame, raises a non-decode error, or yields an empty frame. -/
def sampleFails (f : SrcFile) : Bool :=
  match readLoop f.reads with
  | none => true
  | some none => true
  | some (some (_, rows)) => rows.isEmpty

/-- The metadata rows recorded under one table name. -/
def metaRecords (name : Str) (m : List MetaRec) : List MetaRec :=
  m.filter (fun q => decide (q.table = name))

/-- Concrete fixture rows and states used by the closed evaluation
    theorems. -/
def rowX : Row := [some ['x']]

def rowY : Row := [some ['y']]

def dbEmpty : Db := ⟨[], []⟩

def tblT : Str := ['t']

/-- A two-row source whose first row is valid UTF-8 and whose second row is
    not (e.g. holds a lone 0xE9 byte), streamed with window size one: the
    first window is appended, then the UTF-8 pass dies and the latin-1 pass
    re-appends the whole file. -/
def fileC1 : BigFile := ⟨true, false, [['h']], true, [(rowX, true), (rowY, false)], none⟩

/-- A clean two-row UTF-8 source. -/
def fileClean : BigFile := ⟨true, false, [['h']], true, [(rowX, true), (rowY, true)], none⟩

/-- A clean source whose very first window append raises a store error. -/
def fileWErr : BigFile := ⟨true, false, [['h']], true, [(rowX, true), (rowY, true)], some 0⟩

/-- A readable two-row source whose single df.to_sql INSERT fails. -/
def srcWErr : SrcFile := ⟨[.ok [['h']] [rowX, rowY]], true⟩

/-- A header-only source file: the frame parses but has zero data rows. -/
def srcEmpty : SrcFile := ⟨[.ok [['h']] []], false⟩

/-- A header-only large file. -/
def fileEmptyBig : BigFile := ⟨true, false, [['h']], true, [], none⟩

/-- A connection state already holding the destination table with two
    rows. -/
def dbPre : Db :=
  ⟨[(tblT, ⟨[['h']], [rowX, rowY]⟩)], [(tblT, ⟨[['h']], [rowX, rowY]⟩)]⟩

/-- A metadata row for a table absent from the current run. -/
def recOld : MetaRec := ⟨['o', 'l', 'd'], ['s'], 1, 1, ['t']⟩

/-- A metadata row produced by the current run. -/
def recNew : MetaRec := ⟨['n', 'e', 'w'], ['s'], 2, 1, ['t']⟩

example : sanitize_column_name ("Match ID!".toList) = "match_id".toList := by decide

example : sanitize_column_name ("2nd Half".toList) = "col_2nd_half".toList := by decide

example : sanitize_column_name ("".toList) = "unnamed_column".toList := by decide

example : generate_table_name ["vct_2024".toList, "matches".toList]
    "overview".toList = "vct_2024_matches_overview".toList := by decide

example : dedupCols ["team".toList, "team".toList] =
    ["team".toList, "team_1".toList] := by decide

example : dedupCols ["a".toList, "a".toList, "a_1".toList] =
    ["a".toList, "a_1".toList, "a_1".toList] := by decide

example : infer_column_type [some ("1".toList), some ("2".toList), some ("3".toList)] =
    .integer := by decide

example : infer_column_type [some ("1".toList), some ("2.5".toList)] = .real := by decide

example : infer_column_type [some ("1".toList), some ("abc".toList)] = .text := by decide

example : infer_column_type [none, none] = .text := by decide

example : infer_column_type [some ("1".toList), some ("2.0".toList)] = .real := by decide

example : infer_column_type_large [some ("1".toList), some ("2.0".toList)] =
    .integer := by decide

example : infer_column_type_large [some ("1".toList), some ("2.5".toList)] =
    .real := by decide

example : infer_column_type_large [some ("1".toList), some ("abc".toList)] =
    .text := by decide

example : pyFloatIsInteger ("1e2".toList) = true := by decide

example : pyFloatParses ("nan".toList) = true := by decide

theorem isUnd_underscore : isUnd '_' = true := by decide

theorem dropTrailing_append_und (x : Str) :
    dropTrailing isUnd (x ++ ['_']) = dropTrailing isUnd x := by
  simp [dropTrailing, List.dropWhile_cons, isUnd_underscore]

theorem stripU_append_und (x : Str) : stripU (x ++ ['_']) = stripU x := by
  simp [stripU, stripWith, dropTrailing_append_und]

theorem stripU_cons_und (y : Str) : stripU ('_' :: y) = stripU y := by
  simp only [stripU, stripWith, dropTrailing]
  rw [show ('_' :: y).reverse = y.reverse ++ ['_'] by simp]
  rw [List.dropWhile_append]
  by_cases h : (y.reverse.dropWhile isUnd).isEmpty
  · rw [if_pos h]
    rw [List.isEmpty_iff] at h
    rw [h]
    decide
  · rw [if_neg h, List.reverse_append]
    simp [List.dropWhile_cons, isUnd_underscore]

theorem collapseU_append_und : ∀ s : Str,
    collapseU (s ++ ['_']) =
      if s.getLast? = some '_' then collapseU s else collapseU s ++ ['_']
  | [] => by simp [collapseU]
  | [c] => by
    by_cases h : c = '_' <;> simp [collapseU, h]
  | a :: b :: rest => by
    have ih := collapseU_append_und (b :: rest)
    by_cases hab : a = '_' ∧ b = '_'
    · obtain ⟨ha, hb⟩ := hab
      subst ha
      subst hb
      simp only [List.cons_append] at ih ⊢
      have h1 : collapseU ('_' :: '_' :: (rest ++ ['_'])) =
          collapseU ('_' :: (rest ++ ['_'])) := by
        simp [collapseU]
      have h2 : collapseU ('_' :: '_' :: rest) = collapseU ('_' :: rest) := by
        simp [collapseU]
      rw [h1, h2, List.getLast?_cons_cons]
      exact ih
    · have h1 : collapseU (a :: b :: (rest ++ ['_'])) =
          a :: collapseU (b :: (rest ++ ['_'])) := by
        simp [collapseU, hab]
      have h2 : collapseU (a :: b :: rest) = a :: collapseU (b :: rest) := by
        simp [collapseU, hab]
      simp only [List.cons_append, List.getLast?_cons_cons, h1, h2]
      rw [show collapseU (b :: (rest ++ ['_'])) = collapseU ((b :: rest) ++ ['_']) by
        simp]
      rw [ih]
      by_cases hl : (b :: rest).getLast? = some '_' <;> simp [hl]

theorem stripU_collapseU_append_und (s : Str) :
    stripU (collapseU (s ++ ['_'])) = stripU (collapseU s) := by
  rw [collapseU_append_und]
  by_cases h : s.getLast? = some '_' <;> simp [h, stripU_append_und]

theorem stripU_collapseU_cons_und : ∀ s : Str,
    stripU (collapseU ('_' :: s)) = stripU (collapseU s)
  | [] => by decide
  | b :: rest => by
    by_cases hb : b = '_'
    · subst hb
      have ih := stripU_collapseU_cons_und rest
      have h1 : collapseU ('_' :: '_' :: rest) = collapseU ('_' :: rest) := by
        simp [collapseU]
      rw [h1]
    · have h1 : collapseU ('_' :: b :: rest) = '_' :: collapseU (b :: rest) := by
        simp [collapseU, hb]
      rw [h1, stripU_cons_und]

theorem isPySpace_not_alnum {c : Char} (h : isPySpace c = true) :
    isAlnumU c = false := by
  simp only [isPySpace, Bool.or_eq_true, beq_iff_eq] at h
  rcases h with ((((h | h) | h) | h) | h) | h <;> subst h <;> decide

theorem replaceChar_of_space {c : Char} (h : isPySpace c = true) :
    replaceChar c = '_' := by
  simp [replaceChar, isPySpace_not_alnum h]

theorem strip_front : ∀ s : Str,
    stripU (collapseU ((s.dropWhile isPySpace).map replaceChar)) =
      stripU (collapseU (s.map replaceChar))
  | [] => rfl
  | c :: s => by
    by_cases h : isPySpace c
    · rw [List.dropWhile_cons, if_pos h, strip_front s, List.map_cons,
        replaceChar_of_space h, stripU_collapseU_cons_und]
    · rw [List.dropWhile_cons, if_neg (by simp [h])]

theorem strip_back_aux : ∀ u : Str,
    stripU (collapseU (((u.dropWhile isPySpace).reverse).map replaceChar)) =
      stripU (collapseU ((u.reverse).map replaceChar))
  | [] => rfl
  | c :: u => by
    by_cases h : isPySpace c
    · rw [List.dropWhile_cons, if_pos h, strip_back_aux u]
      rw [show (c :: u).reverse = u.reverse ++ [c] by simp]
      rw [List.map_append, List.map_cons, replaceChar_of_space h]
      simp only [List.map_nil]
      rw [stripU_collapseU_append_und]
    · rw [List.dropWhile_cons, if_neg (by simp [h])]

theorem strip_equiv (s : Str) :
    stripU (collapseU ((stripWith isPySpace s).map replaceChar)) =
      stripU (collapseU (s.map replaceChar)) := by
  have h1 := strip_front (dropTrailing isPySpace s)
  have h2 := strip_back_aux s.reverse
  simp only [List.reverse_reverse] at h2
  calc stripU (collapseU ((stripWith isPySpace s).map replaceChar))
      = stripU (collapseU ((dropTrailing isPySpace s).map replaceChar)) := h1
    _ = stripU (collapseU (s.map replaceChar)) := h2

theorem sanitize_eq_sanitizeSpec (s : Str) :
    sanitize_column_name s = sanitizeSpec s := by
  unfold sanitize_column_name sanitizeSpec
  rw [strip_equiv]

theorem digit_char_isDigit {m : Nat} (h : m < 10) :
    (Char.ofNat (48 + m)).isDigit = true := by
  interval_cases m <;> decide

theorem digit_char_toNat {m : Nat} (h : m < 10) :
    (Char.ofNat (48 + m)).toNat = 48 + m := by
  interval_cases m <;> decide

theorem natCharsAux_digits : ∀ fuel n, n < fuel →
    ∀ c ∈ natCharsAux fuel n, c.isDigit = true := by
  intro fuel
  induction fuel with
  | zero => intro n h; omega
  | succ f ih =>
    intro n h c hc
    by_cases h10 : n < 10
    · simp only [natCharsAux, if_pos h10, List.mem_singleton] at hc
      subst hc
      exact digit_char_isDigit h10
    · simp only [natCharsAux, if_neg h10, List.mem_append, List.mem_singleton] at hc
      rcases hc with hc | hc
      · have hlt := Nat.div_lt_self (show 0 < n by omega) (show 1 < 10 by omega)
        exact ih (n / 10) (by omega) c hc
      · subst hc
        exact digit_char_isDigit (Nat.mod_lt _ (by omega))

theorem natCharsAux_ne_nil : ∀ fuel n, n < fuel → natCharsAux fuel n ≠ [] := by
  intro fuel
  induction fuel with
  | zero => intro n h; omega
  | succ f _ =>
    intro n _
    by_cases h10 : n < 10 <;> simp [natCharsAux, h10]

theorem natChars_digits (n : Nat) : ∀ c ∈ natChars n, c.isDigit = true :=
  natCharsAux_digits (n + 1) n (Nat.lt_succ_self n)

theorem natChars_ne_nil (n : Nat) : natChars n ≠ [] :=
  natCharsAux_ne_nil (n + 1) n (Nat.lt_succ_self n)

theorem und_not_mem_natChars (n : Nat) : '_' ∉ natChars n := by
  intro h
  have := natChars_digits n '_' h
  simp at this

theorem natCharsAux_foldl : ∀ fuel n a, n < fuel →
    List.foldl (fun a c => 10 * a + (c.toNat - 48)) a (natCharsAux fuel n) =
      a * 10 ^ (natCharsAux fuel n).length + n := by
  intro fuel
  induction fuel with
  | zero => intro n a h; omega
  | succ f ih =>
    intro n a h
    by_cases h10 : n < 10
    · simp only [natCharsAux, if_pos h10, List.foldl_cons, List.foldl_nil,
        List.length_singleton, pow_one, digit_char_toNat h10]
      omega
    · have hlt := Nat.div_lt_self (show 0 < n by omega) (show 1 < 10 by omega)
      have hmod : n % 10 < 10 := Nat.mod_lt _ (by omega)
      simp only [natCharsAux, if_neg h10, List.foldl_append, List.foldl_cons,
        List.foldl_nil, List.length_append, List.length_singleton,
        ih (n / 10) a (by omega), digit_char_toNat hmod, pow_succ]
      have hdm := Nat.div_add_mod n 10
      have hexp : a * (10 ^ (natCharsAux f (n / 10)).length * 10) =
          10 * (a * 10 ^ (natCharsAux f (n / 10)).length) := by ring
      omega

theorem evalDigits_natChars (n : Nat) : evalDigits (natChars n) = n := by
  unfold evalDigits natChars
  rw [natCharsAux_foldl (n + 1) n 0 (Nat.lt_succ_self n)]
  simp

theorem natChars_inj {m n : Nat} (h : natChars m = natChars n) : m = n := by
  have h2 := congrArg evalDigits h
  rw [evalDigits_natChars, evalDigits_natChars] at h2
  exact h2

theorem hasNumSuffix_append (t D : Str) (hne : D ≠ [])
    (hd : ∀ c ∈ D, c.isDigit = true) : hasNumSuffix (t ++ '_' :: D) = true := by
  have hrev : (t ++ '_' :: D).reverse = D.reverse ++ '_' :: t.reverse := by
    simp
  have hall : ∀ c ∈ D.reverse, Char.isDigit c = true := by
    intro c hcmem
    exact hd c (List.mem_reverse.mp hcmem)
  have htake : (D.reverse ++ '_' :: t.reverse).takeWhile Char.isDigit = D.reverse := by
    rw [List.takeWhile_append]
    rw [List.takeWhile_eq_self_iff.mpr hall]
    simp [List.takeWhile_cons]
  have hdrop : (D.reverse ++ '_' :: t.reverse).dropWhile Char.isDigit =
      '_' :: t.reverse := by
    rw [List.dropWhile_append]
    rw [List.dropWhile_eq_nil_iff.mpr hall]
    simp [List.dropWhile_cons]
  unfold hasNumSuffix
  rw [hrev, htake, hdrop]
  simp
  intro hempty
  exact hne (by simpa using hempty)

theorem renderName_inj {c d : Str} {j k : Nat}
    (hc : hasNumSuffix c = false) (hd : hasNumSuffix d = false)
    (h : renderName c j = renderName d k) : c = d ∧ j = k := by
  unfold renderName at h
  by_cases hj : j = 0 <;> by_cases hk : k = 0
  · subst hj
    subst hk
    rw [if_pos rfl, if_pos rfl] at h
    exact ⟨h, rfl⟩
  · subst hj
    rw [if_pos rfl, if_neg hk] at h
    exfalso
    have hsfx := hasNumSuffix_append d (natChars k) (natChars_ne_nil k)
      (natChars_digits k)
    rw [← h, hc] at hsfx
    exact Bool.noConfusion hsfx
  · subst hk
    rw [if_neg hj, if_pos rfl] at h
    exfalso
    have hsfx := hasNumSuffix_append c (natChars j) (natChars_ne_nil j)
      (natChars_digits j)
    rw [h, hd] at hsfx
    exact Bool.noConfusion hsfx
  · rw [if_neg hj, if_neg hk] at h
    rcases List.append_eq_append_iff.mp h with ⟨m, hm1, hm2⟩ | ⟨m, hm1, hm2⟩
    · cases m with
      | nil =>
        rw [List.append_nil] at hm1
        rw [List.nil_append] at hm2
        have hjk : j = k := natChars_inj (List.cons.inj hm2).2
        exact ⟨hm1.symm, hjk⟩
      | cons x xs =>
        exfalso
        have hx2 : natChars j = xs ++ '_' :: natChars k := by
          rw [List.cons_append] at hm2
          exact (List.cons.inj hm2).2
        have hmem : '_' ∈ natChars j := by
          rw [hx2]
          simp
        exact und_not_mem_natChars j hmem
    · cases m with
      | nil =>
        rw [List.append_nil] at hm1
        rw [List.nil_append] at hm2
        have hjk : k = j := natChars_inj (List.cons.inj hm2).2
        exact ⟨hm1, hjk.symm⟩
      | cons x xs =>
        exfalso
        have hx2 : natChars k = xs ++ '_' :: natChars j := by
          rw [List.cons_append] at hm2
          exact (List.cons.inj hm2).2
        have hmem : '_' ∈ natChars k := by
          rw [hx2]
          simp
        exact und_not_mem_natChars k hmem

theorem alookup_cons_self (c : Str) (m : Nat) (seen : List (Str × Nat)) :
    alookup c ((c, m) :: seen) = some m := by
  simp [alookup]

theorem alookup_cons_ne {k c : Str} (h : k ≠ c) (m : Nat) (seen : List (Str × Nat)) :
    alookup c ((k, m) :: seen) = alookup c seen := by
  simp [alookup, h]

theorem cntSeen_cons_self (c : Str) (m : Nat) (seen : List (Str × Nat)) :
    cntSeen ((c, m) :: seen) c = m + 1 := by
  simp [cntSeen, alookup_cons_self]

theorem cntSeen_cons_ne {k c : Str} (h : k ≠ c) (m : Nat) (seen : List (Str × Nat)) :
    cntSeen ((k, m) :: seen) c = cntSeen seen c := by
  simp [cntSeen, alookup_cons_ne h]

theorem dedupGo_cons (seen : List (Str × Nat)) (c : Str) (cs : List Str) :
    dedupGo seen (c :: cs) =
      renderName c (cntSeen seen c) :: dedupGo ((c, cntSeen seen c) :: seen) cs := by
  cases h : alookup c seen with
  | some n =>
    have h1 : dedupGo seen (c :: cs) =
        (c ++ '_' :: natChars (n + 1)) :: dedupGo ((c, n + 1) :: seen) cs := by
      conv_lhs => rw [dedupGo]
      rw [h]
    rw [h1]
    simp [cntSeen, h, renderName]
  | none =>
    have h1 : dedupGo seen (c :: cs) = c :: dedupGo ((c, 0) :: seen) cs := by
      conv_lhs => rw [dedupGo]
      rw [h]
    rw [h1]
    simp [cntSeen, h, renderName]

theorem cntSeen_push_le (seen : List (Str × Nat)) (c c' : Str) :
    cntSeen seen c' ≤ cntSeen ((c, cntSeen seen c) :: seen) c' := by
  by_cases h : c = c'
  · subst h
    rw [cntSeen_cons_self]
    omega
  · rw [cntSeen_cons_ne h]

theorem mem_dedupGo : ∀ (cs : List Str) (seen : List (Str × Nat)) (x : Str),
    x ∈ dedupGo seen cs →
      ∃ c ∈ cs, ∃ j, x = renderName c j ∧ cntSeen seen c ≤ j := by
  intro cs
  induction cs with
  | nil =>
    intro seen x hx
    simp [dedupGo] at hx
  | cons c cs ih =>
    intro seen x hx
    rw [dedupGo_cons] at hx
    rcases List.mem_cons.mp hx with hx | hx
    · exact ⟨c, List.mem_cons_self c cs, cntSeen seen c, hx, le_refl _⟩
    · obtain ⟨c', hc', j, hj, hle⟩ := ih _ x hx
      exact ⟨c', List.mem_cons_of_mem c hc', j, hj,
        le_trans (cntSeen_push_le seen c c') hle⟩

theorem dedupGo_get : ∀ (cs : List Str) (seen : List (Str × Nat)) (i : Nat) (c : Str),
    cs[i]? = some c →
    (dedupGo seen cs)[i]? =
      some (renderName c (cntSeen seen c + (cs.take i).count c)) := by
  intro cs
  induction cs with
  | nil =>
    intro seen i c h
    simp at h
  | cons c0 cs ih =>
    intro seen i c h
    rw [dedupGo_cons]
    cases i with
    | zero =>
      rw [List.getElem?_cons_zero] at h
      injection h with h
      subst h
      rw [List.getElem?_cons_zero]
      simp [List.take_zero]
    | succ i =>
      rw [List.getElem?_cons_succ] at h
      rw [List.getElem?_cons_succ]
      rw [ih ((c0, cntSeen seen c0) :: seen) i c h]
      rw [List.take_succ_cons, List.count_cons]
      by_cases hc : c0 = c
      · subst hc
        rw [cntSeen_cons_self]
        have hbeq : (c0 == c0) = true := by simp
        rw [hbeq]
        have harith : cntSeen seen c0 + 1 + (cs.take i).count c0 =
            cntSeen seen c0 + ((cs.take i).count c0 + if true = true then 1 else 0) := by
          simp
          omega
        rw [harith]
      · rw [cntSeen_cons_ne hc]
        have hbeq : (c0 == c) = false := by simpa using hc
        rw [hbeq]
        simp

theorem dedupGo_pairwise : ∀ (cs : List Str) (seen : List (Str × Nat)),
    (∀ n ∈ cs, hasNumSuffix n = false) →
      (dedupGo seen cs).Pairwise (· ≠ ·) := by
  intro cs
  induction cs with
  | nil =>
    intro seen _
    simp [dedupGo]
  | cons c cs ih =>
    intro seen H
    rw [dedupGo_cons, List.pairwise_cons]
    constructor
    · intro y hy heq
      obtain ⟨c', hc', j, hj, hle⟩ := mem_dedupGo cs _ y hy
      rw [hj] at heq
      obtain ⟨hcc, hjj⟩ := renderName_inj (H c (List.mem_cons_self c cs))
        (H c' (List.mem_cons_of_mem c hc')) heq
      subst hcc
      rw [cntSeen_cons_self] at hle
      omega
    · exact ih _ (fun n hn => H n (List.mem_cons_of_mem c hn))

theorem replaceChar_alnum (c : Char) : isAlnumU (replaceChar c) = true := by
  unfold replaceChar
  by_cases h : isAlnumU c = true
  · rw [if_pos h]
    exact h
  · rw [if_neg h]
    decide

theorem mem_collapseU : ∀ (l : Str) (x : Char), x ∈ collapseU l → x ∈ l
  | [] => by
    intro x hx
    simp [collapseU] at hx
  | [c] => by
    intro x hx
    simpa [collapseU] using hx
  | a :: b :: rest => by
    intro x hx
    by_cases hab : a = '_' ∧ b = '_'
    · rw [show collapseU (a :: b :: rest) = collapseU (b :: rest) from by
        simp [collapseU, hab]] at hx
      exact List.mem_cons_of_mem a (mem_collapseU (b :: rest) x hx)
    · rw [show collapseU (a :: b :: rest) = a :: collapseU (b :: rest) from by
        simp [collapseU, hab]] at hx
      rcases List.mem_cons.mp hx with h | h
      · rw [h]
        exact List.mem_cons_self a (b :: rest)
      · exact List.mem_cons_of_mem a (mem_collapseU (b :: rest) x h)

theorem mem_stripU {x : Char} {l : Str} (h : x ∈ stripU l) : x ∈ l := by
  unfold stripU stripWith dropTrailing at h
  have h1 := List.Sublist.mem h (List.dropWhile_sublist isUnd)
  have h2 := List.mem_reverse.mp h1
  have h3 := List.Sublist.mem h2 (List.dropWhile_sublist isUnd)
  exact List.mem_reverse.mp h3

theorem toNat_ofNat_small {n : Nat} (h : n < 55296) : (Char.ofNat n).toNat = n := by
  unfold Char.ofNat
  split
  · rfl
  · next hv => exact absurd (Or.inl h : n.isValidChar) hv

theorem isDigit_iff_toNat {c : Char} : c.isDigit = true ↔ 48 ≤ c.toNat ∧ c.toNat ≤ 57 := by
  simp only [Char.isDigit, Bool.and_eq_true, decide_eq_true_eq, ge_iff_le]
  exact Iff.rfl

theorem toLower_eq_self {c : Char} (h : ¬(65 ≤ c.toNat ∧ c.toNat ≤ 90)) :
    c.toLower = c := by
  unfold Char.toLower
  rw [if_neg h]

theorem toLower_good {c : Char} (h : isAlnumU c = true) : goodChar c.toLower = true := by
  simp only [isAlnumU, Char.isAlpha, Bool.or_eq_true, beq_iff_eq] at h
  rcases h with ((hu | hlo) | hdg) | hund
  · simp only [Char.isUpper, Bool.and_eq_true, decide_eq_true_eq, ge_iff_le] at hu
    have h1 : 65 ≤ c.toNat := hu.1
    have h2 : c.toNat ≤ 90 := hu.2
    unfold Char.toLower
    rw [if_pos ⟨h1, h2⟩]
    have hv : (Char.ofNat (c.toNat + 32)).toNat = c.toNat + 32 :=
      toNat_ofNat_small (by omega)
    simp only [goodChar, hv, Bool.or_eq_true, Bool.and_eq_true, decide_eq_true_eq]
    exact Or.inl (Or.inl ⟨by omega, by omega⟩)
  · simp only [Char.isLower, Bool.and_eq_true, decide_eq_true_eq, ge_iff_le] at hlo
    have h1 : 97 ≤ c.toNat := hlo.1
    have h2 : c.toNat ≤ 122 := hlo.2
    rw [toLower_eq_self (by omega)]
    simp only [goodChar, Bool.or_eq_true, Bool.and_eq_true, decide_eq_true_eq]
    exact Or.inl (Or.inl ⟨by omega, by omega⟩)
  · have hb := isDigit_iff_toNat.mp hdg
    rw [toLower_eq_self (by omega)]
    simp only [goodChar, Bool.or_eq_true]
    exact Or.inl (Or.inr hdg)
  · rw [hund]
    decide

theorem toLower_not_digit {c : Char} (h : c.isDigit = false) :
    (c.toLower).isDigit = false := by
  by_cases hu : 65 ≤ c.toNat ∧ c.toNat ≤ 90
  · unfold Char.toLower
    rw [if_pos hu]
    have hv : (Char.ofNat (c.toNat + 32)).toNat = c.toNat + 32 :=
      toNat_ofNat_small (by omega)
    rw [Bool.eq_false_iff]
    intro hdig
    have hb := isDigit_iff_toNat.mp hdig
    omega
  · rw [toLower_eq_self hu]
    exact h

theorem goodChar_of_digit {c : Char} (h : c.isDigit = true) : goodChar c = true := by
  simp only [goodChar, Bool.or_eq_true]
  exact Or.inl (Or.inr h)

theorem goodName_map_toLower {l : Str} (h0 : l ≠ [])
    (hch : ∀ c ∈ l, isAlnumU c = true)
    (hhd : ∀ c, l.head? = some c → c.isDigit = false) :
    goodName (l.map Char.toLower) = true := by
  cases l with
  | nil => exact absurd rfl h0
  | cons c t =>
    have hc := hhd c rfl
    simp only [goodName, List.map_cons, Bool.and_eq_true, Bool.not_eq_true']
    constructor
    · exact toLower_not_digit hc
    · rw [List.all_eq_true]
      intro x hx
      rw [show (c.toLower :: t.map Char.toLower) = (c :: t).map Char.toLower from rfl]
        at hx
      obtain ⟨d, hd1, hd2⟩ := List.mem_map.mp hx
      rw [← hd2]
      exact toLower_good (hch d hd1)

theorem baseChars (s : Str) :
    ∀ c ∈ stripU (collapseU (s.map replaceChar)), isAlnumU c = true := by
  intro c hc
  have h1 := mem_stripU hc
  have h2 := mem_collapseU _ c h1
  obtain ⟨d, _, hd2⟩ := List.mem_map.mp h2
  rw [← hd2]
  exact replaceChar_alnum d

theorem sanitize_goodName (s : Str) : goodName (sanitize_column_name s) = true := by
  have hBchars := baseChars (stripWith isPySpace s)
  unfold sanitize_column_name
  generalize hgen : stripU (collapseU ((stripWith isPySpace s).map replaceChar)) = B
  rw [hgen] at hBchars
  cases B with
  | nil => decide
  | cons c0 rest =>
    simp only [finishName]
    by_cases hd : c0.isDigit
    · rw [if_pos hd]
      have hne : colPre ++ c0 :: rest ≠ [] := by simp [colPre]
      rw [if_neg hne]
      apply goodName_map_toLower hne
      · intro c hc
        rcases List.mem_append.mp hc with h | h
        · simp only [colPre, List.mem_cons, List.mem_singleton,
            List.not_mem_nil, or_false] at h
          rcases h with h | h | h | h <;> subst h <;> decide
        · exact hBchars c h
      · intro c hc
        rw [show colPre ++ c0 :: rest = 'c' :: (['o', 'l', '_'] ++ c0 :: rest) from rfl]
          at hc
        rw [List.head?_cons] at hc
        cases hc
        decide
    · rw [if_neg hd]
      have hne : c0 :: rest ≠ [] := by simp
      apply goodName_map_toLower hne hBchars
      intro c hc
      rw [List.head?_cons] at hc
      cases hc
      simpa using hd

theorem goodName_renderName {c : Str} {j : Nat} (h : goodName c = true) :
    goodName (renderName c j) = true := by
  unfold renderName
  by_cases hj : j = 0
  · rw [if_pos hj]
    exact h
  · rw [if_neg hj]
    cases c with
    | nil => simp [goodName] at h
    | cons c0 t =>
      simp only [goodName, Bool.and_eq_true, Bool.not_eq_true', List.all_eq_true,
        List.cons_append] at h ⊢
      obtain ⟨h1, h2⟩ := h
      refine ⟨h1, ?_⟩
      intro x hx
      rcases List.mem_cons.mp hx with hx | hx
      · exact h2 x (by rw [hx]; exact List.mem_cons_self c0 t)
      · rcases List.mem_append.mp hx with hx | hx
        · exact h2 x (List.mem_cons_of_mem c0 hx)
        · rcases List.mem_cons.mp hx with hx | hx
          · rw [hx]
            decide
          · exact goodChar_of_digit (natChars_digits j x hx)

theorem inferScan_eq : ∀ (vs : List Str) (ai af : Bool),
    inferScan vs ai af =
      (ai && vs.all (fun v => pyIntParses (stripWith isPySpace v)),
       af && vs.all (fun v => pyFloatParses (stripWith isPySpace v))) := by
  intro vs
  induction vs with
  | nil =>
    intro ai af
    simp [inferScan]
  | cons v vs ih =>
    intro ai af
    simp only [inferScan, List.all_cons]
    by_cases h : (!(ai && pyIntParses (stripWith isPySpace v)) &&
        !(af && pyFloatParses (stripWith isPySpace v))) = true
    · rw [if_pos h]
      simp only [Bool.and_eq_true, Bool.not_eq_true'] at h
      obtain ⟨h1, h2⟩ := h
      rw [← Bool.and_assoc, ← Bool.and_assoc, h1, h2]
      simp
    · rw [if_neg h]
      rw [ih]
      rw [← Bool.and_assoc, ← Bool.and_assoc]

/-- C8: sanitize_column_name is a pure function that, on every input
    string, agrees with the claimed pipeline — replace each character
    outside [A-Za-z0-9_] by an underscore, collapse runs of underscores,
    strip edge underscores, prepend col_ on a leading digit, substitute
    unnamed_column for an empty result, lowercase — and the three cited
    values hold. -/
theorem claim_C8_sanitize :
    (∀ s : Str, sanitize_column_name s = sanitizeSpec s) ∧
    sanitize_column_name ("Match ID!".toList) = "match_id".toList ∧
    sanitize_column_name ("2nd Half".toList) = "col_2nd_half".toList ∧
    sanitize_column_name ("".toList) = "unnamed_column".toList :=
  ⟨sanitize_eq_sanitizeSpec, by decide, by decide, by decide⟩

/-- C9 counterexample: the table namer applies no digit-leading guard — a
    stem of 2024 at the root maps to the table name 2024, which starts with
    a digit, contradicting the claimed defensive guard. -/
theorem claim_C9_counterexample :
    generate_table_name [] "2024".toList = "2024".toList ∧
    (generate_table_name [] "2024".toList).head? = some '2' ∧
    ('2').isDigit = true := by
  decide

/-- C9 amended: the table name is the underscore-join of the directory
    parts and the stem, passed through the same character
    replace/collapse/trim/lowercase rules as sanitize but with no
    digit-leading guard; every output character is storage-safe and the
    cited vct_2024 example holds. -/
theorem claim_C9_table_name :
    (∀ (parts : List Str) (stem : Str),
      generate_table_name parts stem = tableNameSpec parts stem) ∧
    (∀ (parts : List Str) (stem : Str),
      (generate_table_name parts stem).all goodChar = true) ∧
    generate_table_name ["vct_2024".toList, "matches".toList] "overview".toList =
      "vct_2024_matches_overview".toList := by
  refine ⟨fun parts stem => rfl, ?_, by decide⟩
  intro parts stem
  rw [List.all_eq_true]
  intro x hx
  unfold generate_table_name at hx
  obtain ⟨d, hd1, hd2⟩ := List.mem_map.mp hx
  rw [← hd2]
  exact toLower_good (baseChars _ d hd1)

/-- C3 counterexample: on the column 1, 2.0 the large-file importer infers
    INTEGER even though 2.0 carries a decimal point, while the full
    importer infers REAL — so the claimed never-Integer rule does not hold
    in both importers. -/
theorem claim_C3_counterexample :
    infer_column_type_large [some ("1".toList), some ("2.0".toList)] = SqlType.integer ∧
    infer_column_type [some ("1".toList), some ("2.0".toList)] = SqlType.real := by
  decide

/-- C3 amended: the full importer's inference follows the claimed rule
    exactly (all-null gives Text; Integer exactly when every sampled value
    parses as an integer literal, Real when every sampled value parses as a
    float literal, Text otherwise, so a decimal-point value is never typed
    Integer there); the large-file importer instead types a column INTEGER
    whenever all values are numeric and the first hundred have integral
    float value, so 2.0 yields Integer; the cited concrete examples hold
    for both. -/
theorem claim_C3_infer :
    (∀ values, infer_column_type values = inferSpec values) ∧
    infer_column_type [some ("1".toList), some ("2".toList), some ("3".toList)] =
      SqlType.integer ∧
    infer_column_type [some ("1".toList), some ("2.5".toList)] = SqlType.real ∧
    infer_column_type [some ("1".toList), some ("abc".toList)] = SqlType.text ∧
    infer_column_type [none, none] = SqlType.text ∧
    infer_column_type_large [some ("1".toList), some ("2.5".toList)] = SqlType.real ∧
    infer_column_type_large [some ("1".toList), some ("abc".toList)] = SqlType.text ∧
    infer_column_type_large [none, none] = SqlType.text := by
  refine ⟨?_, by decide, by decide, by decide, by decide, by decide, by decide,
    by decide⟩
  intro values
  simp only [infer_column_type, inferSpec, inferScan_eq, Bool.true_and]

/-- C4 counterexample: the raw headers a, a, a 1 sanitize to a, a, a_1; the
    de-duplication loop renames the second a to a_1, which collides with
    the untouched third name — the output names are not pairwise
    distinct. -/
theorem claim_C4_counterexample :
    dedupCols (["a".toList, "a".toList, "a 1".toList].map sanitize_column_name) =
      ["a".toList, "a_1".toList, "a_1".toList] ∧
    ¬ (dedupCols (["a".toList, "a".toList, "a 1".toList].map
        sanitize_column_name)).Pairwise (· ≠ ·) := by
  constructor
  · decide
  · intro hp
    rw [show dedupCols (["a".toList, "a".toList, "a 1".toList].map
        sanitize_column_name) = ["a".toList, "a_1".toList, "a_1".toList] from by
      decide] at hp
    rw [List.pairwise_cons] at hp
    rw [List.pairwise_cons] at hp
    exact hp.2.1 ("a_1".toList) (List.mem_singleton.mpr rfl) rfl

/-- C4 amended: unconditionally, every output name of the
    sanitize-then-deduplicate step is nonempty, lowercase
    alphanumeric-plus-underscore and not digit-leading, and the i-th output
    is exactly the i-th sanitized name rendered with the count of its
    earlier occurrences — the first occurrence keeps the bare name, the
    k-th recurrence gets the suffix _k, in first-seen order.  The names
    are pairwise distinct whenever no sanitized header itself already ends
    in an underscore-digit suffix; such a name (a_1 from the raw header
    a 1) can collide with a generated suffix, so distinctness is not
    unconditional. -/
theorem claim_C4_dedup (raws : List Str) :
    (∀ x ∈ dedupCols (raws.map sanitize_column_name), goodName x = true) ∧
    (∀ (i : Nat) (c : Str), (raws.map sanitize_column_name)[i]? = some c →
      (dedupCols (raws.map sanitize_column_name))[i]? =
        some (renderName c (((raws.map sanitize_column_name).take i).count c))) ∧
    ((∀ n ∈ raws.map sanitize_column_name, hasNumSuffix n = false) →
      (dedupCols (raws.map sanitize_column_name)).Pairwise (· ≠ ·)) := by
  refine ⟨?_, ?_, fun H => dedupGo_pairwise _ [] H⟩
  · intro x hx
    obtain ⟨c, hc, j, hj, _⟩ := mem_dedupGo _ [] x hx
    rw [hj]
    obtain ⟨r, _, hr2⟩ := List.mem_map.mp hc
    subst hr2
    exact goodName_renderName (sanitize_goodName r)
  · intro i c h
    have hg := dedupGo_get (raws.map sanitize_column_name) [] i c h
    simpa [cntSeen, alookup] using hg

/-- C4 witness: for the duplicate headers Team, Team every output name is
    well-formed, position 1 carries the sanitized name team so its output
    is the first-seen-order rendering team_1, and — the inputs meeting the
    no-numeric-suffix condition — the outputs are pairwise distinct. -/
theorem claim_C4_witness :
    (∀ x ∈ dedupCols (["Team".toList, "Team".toList].map sanitize_column_name),
      goodName x = true) ∧
    ((["Team".toList, "Team".toList].map sanitize_column_name)[1]? =
      some ("team".toList) ∧
     (dedupCols (["Team".toList, "Team".toList].map sanitize_column_name))[1]? =
      some (renderName ("team".toList)
        (((["Team".toList, "Team".toList].map
            sanitize_column_name).take 1).count ("team".toList)))) ∧
    ((∀ n ∈ (["Team".toList, "Team".toList].map sanitize_column_name),
        hasNumSuffix n = false) ∧
     (dedupCols (["Team".toList, "Team".toList].map
        sanitize_column_name)).Pairwise (· ≠ ·)) :=
  ⟨(claim_C4_dedup [("Team".toList), ("Team".toList)]).1,
   ⟨by decide,
    (claim_C4_dedup [("Team".toList), ("Team".toList)]).2.1 1 ("team".toList)
      (by decide)⟩,
   by decide,
   (claim_C4_dedup [("Team".toList), ("Team".toList)]).2.2 (by decide)⟩

/-- C7: a source file whose sample is empty or whose read fails in every
    supported encoding is reported failed and leaves the connection state
    exactly unchanged — no table is created or dropped, so a pre-existing
    table of the same name keeps its schema and rows.  This holds for both
    importers. -/
theorem claim_C7_skip :
    (∀ (f : SrcFile) (tn : Str) (db : Db), sampleFails f = true →
      import_csv_file f tn db = (false, db)) ∧
    (∀ (m : Nat) (f : BigFile) (tn : Str) (db : Db),
      (!f.fileExists || f.sampleOtherError || f.rows.isEmpty) = true →
      import_csv_in_batches m f tn db = (false, 0, db)) := by
  constructor
  · intro f tn db h
    unfold import_csv_file
    unfold sampleFails at h
    cases hr : readLoop f.reads with
    | none => rfl
    | some o =>
      cases o with
      | none => rfl
      | some cr =>
        obtain ⟨cols, rows⟩ := cr
        rw [hr] at h
        have h2 : rows = [] := by simpa using h
        subst h2
        simp
  · intro m f tn db h
    unfold import_csv_in_batches
    simp only [Bool.or_eq_true] at h
    rcases h with (h | h) | h
    · simp [h]
    · cases hfe : f.fileExists <;> simp [hfe, h]
    · cases hfe : f.fileExists <;> cases hse : f.sampleOtherError <;>
        simp [hfe, hse, h]

/-- C7 witness: a header-only file is skipped by both importers with the
    state untouched. -/
theorem claim_C7_witness :
    (sampleFails srcEmpty = true ∧
      import_csv_file srcEmpty tblT dbPre = (false, dbPre)) ∧
    ((!fileEmptyBig.fileExists || fileEmptyBig.sampleOtherError ||
        fileEmptyBig.rows.isEmpty) = true ∧
      import_csv_in_batches 0 fileEmptyBig tblT dbPre = (false, 0, dbPre)) :=
  ⟨⟨by decide, claim_C7_skip.1 srcEmpty tblT dbPre (by decide)⟩,
   ⟨by decide, claim_C7_skip.2 0 fileEmptyBig tblT dbPre (by decide)⟩⟩

theorem metaRecords_upsert (n : Str) (m : List MetaRec) (r : MetaRec) :
    metaRecords n (upsertMeta m r) = if r.table = n then [r] else metaRecords n m := by
  unfold upsertMeta metaRecords
  rw [List.filter_append]
  by_cases h : r.table = n
  · rw [if_pos h]
    subst h
    rw [List.filter_filter]
    have h1 : ∀ q : MetaRec,
        (decide (q.table = r.table) && decide (q.table ≠ r.table)) = false := by
      intro q
      by_cases hq : q.table = r.table <;> simp [hq]
    simp only [h1, List.filter_false, List.nil_append]
    simp
  · rw [if_neg h]
    rw [List.filter_filter]
    have h1 : ∀ q : MetaRec,
        (decide (q.table = n) && decide (q.table ≠ r.table)) =
          decide (q.table = n) := by
      intro q
      by_cases hq : q.table = n
      · rw [hq]
        have hnr : ¬n = r.table := fun hrn => h hrn.symm
        simp [hnr]
      · simp [hq]
    simp only [h1]
    have h2 : List.filter (fun q => decide (q.table = n)) [r] = [] := by
      simp [h]
    rw [h2, List.append_nil]

theorem update_meta_untouched : ∀ (is : List MetaRec) (meta : List MetaRec) (n : Str),
    (∀ r ∈ is, r.table ≠ n) →
    metaRecords n (update_metadata_table is meta) = metaRecords n meta := by
  intro is
  induction is with
  | nil =>
    intro meta n _
    rfl
  | cons i is ih =>
    intro meta n h
    rw [show update_metadata_table (i :: is) meta =
      update_metadata_table is (upsertMeta meta i) from rfl]
    rw [ih (upsertMeta meta i) n (fun r hr => h r (List.mem_cons_of_mem _ hr))]
    rw [metaRecords_upsert]
    rw [if_neg (h i (List.mem_cons_self _ _))]

theorem update_meta_hit : ∀ (is : List MetaRec) (meta : List MetaRec),
    (is.map (fun r => r.table)).Nodup →
    ∀ r ∈ is, metaRecords r.table (update_metadata_table is meta) = [r] := by
  intro is
  induction is with
  | nil =>
    intro meta _ r hr
    exact absurd hr (List.not_mem_nil r)
  | cons i is ih =>
    intro meta hnd r hr
    rw [List.map_cons, List.nodup_cons] at hnd
    rw [show update_metadata_table (i :: is) meta =
      update_metadata_table is (upsertMeta meta i) from rfl]
    rcases List.mem_cons.mp hr with hri | hri
    · subst hri
      have hnot : ∀ q ∈ is, q.table ≠ r.table := by
        intro q hq hqe
        exact hnd.1 (by rw [← hqe]; exact List.mem_map_of_mem _ hq)
      rw [update_meta_untouched is (upsertMeta meta r) r.table hnot]
      rw [metaRecords_upsert, if_pos rfl]
    · exact ih (upsertMeta meta i) hnd.2 r hri

/-- C6 counterexample: the full importer's create_metadata_table drops the
    whole metadata table and reinserts only this run's records, so the
    record of a table that was not imported in this run — here old — is
    destroyed rather than left unchanged. -/
theorem claim_C6_counterexample :
    metaRecords recOld.table (create_metadata_table [recNew] [recOld]) = [] ∧
    metaRecords recOld.table [recOld] = [recOld] := by
  decide

/-- C6 amended: the large-file importer's update_metadata_table is a true
    upsert keyed by table name — after it runs, every imported table has
    exactly its one fresh record and records of tables not imported are
    unchanged; the full importer's create_metadata_table instead rebuilds
    the metadata table from scratch, keeping only this run's records. -/
theorem claim_C6_metadata (imported meta : List MetaRec)
    (hnd : (imported.map (fun r => r.table)).Nodup) :
    (∀ r ∈ imported,
      metaRecords r.table (update_metadata_table imported meta) = [r]) ∧
    (∀ n : Str, (∀ r ∈ imported, r.table ≠ n) →
      metaRecords n (update_metadata_table imported meta) = metaRecords n meta) ∧
    create_metadata_table imported meta = imported :=
  ⟨update_meta_hit imported meta hnd,
   fun n h => update_meta_untouched imported meta n h, rfl⟩

/-- C6 witness: with one prior record for old and one imported record for
    new, the upsert path keeps old and records new. -/
theorem claim_C6_witness :
    ([recNew].map (fun r => r.table)).Nodup ∧
    ((∀ r ∈ [recNew],
        metaRecords r.table (update_metadata_table [recNew] [recOld]) = [r]) ∧
      (∀ n : Str, (∀ r ∈ [recNew], r.table ≠ n) →
        metaRecords n (update_metadata_table [recNew] [recOld]) =
          metaRecords n [recOld]) ∧
      create_metadata_table [recNew] [recOld] = [recNew]) :=
  ⟨by decide, claim_C6_metadata [recNew] [recOld] (by decide)⟩

theorem lookup_reset (tn : Str) (cols : List Str) (ts : List (Str × Table)) :
    lookupTable tn (resetTable tn cols ts) = some ⟨cols, []⟩ := by
  simp [resetTable, lookupTable]

theorem lookup_appendRows (tn : Str) (rs : List Row) (ts : List (Str × Table)) :
    lookupTable tn (appendRows tn rs ts) =
      (lookupTable tn ts).map (fun t => ⟨t.cols, t.rows ++ rs⟩) := by
  induction ts with
  | nil => rfl
  | cons p ps ih =>
    obtain ⟨k, t⟩ := p
    by_cases h : k = tn
    · subst h
      rw [show appendRows k rs ((k, t) :: ps) =
          (k, ⟨t.cols, t.rows ++ rs⟩) :: appendRows k rs ps from by
        simp [appendRows]]
      rw [show lookupTable k ((k, ⟨t.cols, t.rows ++ rs⟩) ::
          appendRows k rs ps) = some ⟨t.cols, t.rows ++ rs⟩ from by
        simp [lookupTable]]
      rw [show lookupTable k ((k, t) :: ps) = some t from by simp [lookupTable]]
      rfl
    · rw [show appendRows tn rs ((k, t) :: ps) = (k, t) :: appendRows tn rs ps from by
        simp [appendRows, h]]
      rw [show lookupTable tn ((k, t) :: appendRows tn rs ps) =
          lookupTable tn (appendRows tn rs ps) from by simp [lookupTable, h]]
      rw [show lookupTable tn ((k, t) :: ps) = lookupTable tn ps from by
        simp [lookupTable, h]]
      exact ih

theorem lookup_append_reset (tn : Str) (rs : List Row) (cols : List Str)
    (ts : List (Str × Table)) :
    lookupTable tn (appendRows tn rs (resetTable tn cols ts)) = some ⟨cols, rs⟩ := by
  rw [lookup_appendRows, lookup_reset]
  simp

theorem commit_if_current (P : Prop) [Decidable P] (db : Db) :
    (if P then commitDb db else db).current = db.current := by
  split <;> rfl

theorem runWindows_sim : ∀ (ws : List (List (Row × Bool))) (cu : Bool)
    (wf : Option Nat) (tn : Str) (db db' : Db) (cn t o : Nat),
    lookupTable tn db.current = lookupTable tn db'.current →
    (∃ d1 d2 tt, runWindows cu wf tn ws db cn t o = .inr (d1, tt) ∧
        runWindows cu wf tn ws db' cn t o = .inr (d2, tt) ∧
        lookupTable tn d1.current = lookupTable tn d2.current) ∨
    (∃ d1 d2 oo, runWindows cu wf tn ws db cn t o = .inl (.decodeErr d1 oo) ∧
        runWindows cu wf tn ws db' cn t o = .inl (.decodeErr d2 oo) ∧
        lookupTable tn d1.current = lookupTable tn d2.current) ∨
    (∃ d1 d2, runWindows cu wf tn ws db cn t o = .inl (.writeErr d1) ∧
        runWindows cu wf tn ws db' cn t o = .inl (.writeErr d2) ∧
        lookupTable tn d1.current = lookupTable tn d2.current) := by
  intro ws
  induction ws with
  | nil =>
    intro cu wf tn db db' cn t o h
    exact Or.inl ⟨db, db', t, rfl, rfl, h⟩
  | cons w ws ih =>
    intro cu wf tn db db' cn t o h
    by_cases h1 : (cu && !(w.all (fun r => r.2))) = true
    · refine Or.inr (Or.inl ⟨db, db', o, ?_, ?_, h⟩) <;>
        simp only [runWindows, if_pos h1]
    · by_cases h2 : wf = some o
      · refine Or.inr (Or.inr ⟨db, db', ?_, ?_, h⟩) <;>
          simp only [runWindows, if_neg h1, if_pos h2]
      · have hstep : ∀ x : Db, runWindows cu wf tn (w :: ws) x cn t o =
            runWindows cu wf tn ws
              (if (cn + 1) % 10 = 0 then
                commitDb (commitDb
                  ⟨x.committed, appendRows tn (w.map (fun r => r.1)) x.current⟩)
              else commitDb
                ⟨x.committed, appendRows tn (w.map (fun r => r.1)) x.current⟩)
              (cn + 1) (t + w.length) (o + 1) := by
          intro x
          simp only [runWindows, if_neg h1, if_neg h2]
        rw [hstep db, hstep db']
        apply ih
        rw [commit_if_current, commit_if_current]
        simp only [commitDb, lookup_appendRows, h]

theorem countRows_congr {tn : Str} {l1 l2 : List (Str × Table)}
    (h : lookupTable tn l1 = lookupTable tn l2) : countRows tn l1 = countRows tn l2 := by
  unfold countRows
  rw [h]

theorem importBatches_congr (m : Nat) (f : BigFile) (tn : Str) (db db2 : Db) :
    (import_csv_in_batches m f tn db).1 = (import_csv_in_batches m f tn db2).1 ∧
    ((import_csv_in_batches m f tn db).1 = true →
      (import_csv_in_batches m f tn db).2.1 =
        (import_csv_in_batches m f tn db2).2.1 ∧
      lookupTable tn (import_csv_in_batches m f tn db).2.2.current =
        lookupTable tn (import_csv_in_batches m f tn db2).2.2.current) := by
  unfold import_csv_in_batches
  cases hfe : f.fileExists with
  | false => simp
  | true =>
    cases hso : f.sampleOtherError with
    | true => simp
    | false =>
      cases hre : f.rows.isEmpty with
      | true => simp
      | false =>
        simp only [Bool.not_true, Bool.not_false, Bool.false_eq_true,
          Bool.true_eq_false, if_false, if_true]
        cases hh : f.headerUtf8 with
        | true =>
          simp only [if_true]
          rcases runWindows_sim (chunkRows m f.rows) true f.writeFail tn
              ⟨resetTable tn (dedupCols (List.map sanitize_column_name f.headers))
                  db.current,
                resetTable tn (dedupCols (List.map sanitize_column_name f.headers))
                  db.current⟩
              ⟨resetTable tn (dedupCols (List.map sanitize_column_name f.headers))
                  db2.current,
                resetTable tn (dedupCols (List.map sanitize_column_name f.headers))
                  db2.current⟩
              0 0 0 (by rw [lookup_reset, lookup_reset])
            with ⟨d1, d2, tt, e1, e2, hd⟩ | ⟨d1, d2, oo, e1, e2, hd⟩ |
              ⟨d1, d2, e1, e2, hd⟩
          · rw [e1, e2]
            exact ⟨rfl, fun _ => ⟨countRows_congr hd, hd⟩⟩
          · rw [e1, e2]
            dsimp only
            rcases runWindows_sim (chunkRows m f.rows) false f.writeFail tn
                d1 d2 0 0 oo hd
              with ⟨g1, g2, tt2, i1, i2, hg⟩ | ⟨g1, g2, oo2, i1, i2, hg⟩ |
                ⟨g1, g2, i1, i2, hg⟩
            · rw [i1, i2]
              exact ⟨rfl, fun _ => ⟨countRows_congr hg, hg⟩⟩
            · rw [i1, i2]
              simp
            · rw [i1, i2]
              simp
          · rw [e1, e2]
            simp
        | false =>
          simp only [Bool.false_eq_true, if_false]
          rcases runWindows_sim (chunkRows m f.rows) false f.writeFail tn
              ⟨resetTable tn (dedupCols (List.map sanitize_column_name f.headers))
                  db.current,
                resetTable tn (dedupCols (List.map sanitize_column_name f.headers))
                  db.current⟩
              ⟨resetTable tn (dedupCols (List.map sanitize_column_name f.headers))
                  db2.current,
                resetTable tn (dedupCols (List.map sanitize_column_name f.headers))
                  db2.current⟩
              0 0 0 (by rw [lookup_reset, lookup_reset])
            with ⟨g1, g2, tt2, i1, i2, hg⟩ | ⟨g1, g2, oo2, i1, i2, hg⟩ |
              ⟨g1, g2, i1, i2, hg⟩
          · rw [i1, i2]
            exact ⟨rfl, fun _ => ⟨countRows_congr hg, hg⟩⟩
          · rw [i1, i2]
            simp
          · rw [i1, i2]
            simp

theorem importBatches_second_run (m : Nat) (db : Db) (f : BigFile) (tn : Str)
    (hs : (import_csv_in_batches m f tn db).1 = true) :
    (import_csv_in_batches m f tn ((import_csv_in_batches m f tn db).2.2)).1 = true ∧
    (import_csv_in_batches m f tn ((import_csv_in_batches m f tn db).2.2)).2.1 =
      (import_csv_in_batches m f tn db).2.1 ∧
    lookupTable tn (import_csv_in_batches m f tn
        ((import_csv_in_batches m f tn db).2.2)).2.2.current =
      lookupTable tn (import_csv_in_batches m f tn db).2.2.current := by
  obtain ⟨h1, h2⟩ := importBatches_congr m f tn db ((import_csv_in_batches m f tn db).2.2)
  obtain ⟨hc, hl⟩ := h2 hs
  exact ⟨by rw [← h1, hs], hc.symm, hl.symm⟩

/-- C2: importing is idempotent.  For the full importer, a second run on
    the same file gives the same outcome flag and leaves the destination
    table with exactly the same contents as the first run (the table is
    recreated from the file, never appended to).  For the large-file
    importer the same holds for every run the code reports successful. -/
theorem claim_C2_idempotent :
    (∀ (db : Db) (f : SrcFile) (tn : Str),
      (import_csv_file f tn (import_csv_file f tn db).2).1 =
        (import_csv_file f tn db).1 ∧
      lookupTable tn (import_csv_file f tn (import_csv_file f tn db).2).2.current =
        lookupTable tn (import_csv_file f tn db).2.current) ∧
    (∀ (m : Nat) (db : Db) (f : BigFile) (tn : Str),
      (import_csv_in_batches m f tn db).1 = true →
      (import_csv_in_batches m f tn
          ((import_csv_in_batches m f tn db).2.2)).1 = true ∧
      (import_csv_in_batches m f tn
          ((import_csv_in_batches m f tn db).2.2)).2.1 =
        (import_csv_in_batches m f tn db).2.1 ∧
      lookupTable tn (import_csv_in_batches m f tn
          ((import_csv_in_batches m f tn db).2.2)).2.2.current =
        lookupTable tn (import_csv_in_batches m f tn db).2.2.current) := by
  constructor
  · intro db f tn
    unfold import_csv_file
    cases hr : readLoop f.reads with
    | none => simp
    | some o =>
      cases o with
      | none => simp
      | some cr =>
        obtain ⟨cols, rows⟩ := cr
        by_cases he : rows.isEmpty
        · simp [he]
        · simp only [he, Bool.false_eq_true, if_false]
          by_cases hw : f.writeFails = true
          · simp [hw, lookup_reset]
          · simp [hw, commitDb, lookup_append_reset]
  · intro m db f tn hs
    exact importBatches_second_run m db f tn hs

/-- C2 witness: a clean two-row file imported twice gives the same success
    flag, the same reported count and the same table contents. -/
theorem claim_C2_witness :
    (import_csv_in_batches 0 fileClean tblT dbEmpty).1 = true ∧
    ((import_csv_in_batches 0 fileClean tblT
        ((import_csv_in_batches 0 fileClean tblT dbEmpty).2.2)).1 = true ∧
      (import_csv_in_batches 0 fileClean tblT
          ((import_csv_in_batches 0 fileClean tblT dbEmpty).2.2)).2.1 =
        (import_csv_in_batches 0 fileClean tblT dbEmpty).2.1 ∧
      lookupTable tblT (import_csv_in_batches 0 fileClean tblT
          ((import_csv_in_batches 0 fileClean tblT dbEmpty).2.2)).2.2.current =
        lookupTable tblT (import_csv_in_batches 0 fileClean tblT dbEmpty).2.2.current) :=
  ⟨by decide, claim_C2_idempotent.2 0 dbEmpty fileClean tblT (by decide)⟩

theorem importBatches_fail_state (m : Nat) (f : BigFile) (tn : Str) (db : Db)
    (hinv : db.current = db.committed)
    (hf : (import_csv_in_batches m f tn db).1 = false) :
    (import_csv_in_batches m f tn db).2.2.current =
      (import_csv_in_batches m f tn db).2.2.committed := by
  unfold import_csv_in_batches at hf ⊢
  cases hfe : f.fileExists with
  | false => simpa using hinv
  | true =>
    cases hso : f.sampleOtherError with
    | true => simpa using hinv
    | false =>
      cases hre : f.rows.isEmpty with
      | true => simpa using hinv
      | false =>
        simp only [hfe, hso, hre, Bool.not_true, Bool.not_false,
          Bool.false_eq_true, Bool.true_eq_false, if_false, if_true] at hf ⊢
        cases hh : f.headerUtf8 with
        | true =>
          simp only [hh, if_true] at hf ⊢
          cases hp : runWindows true f.writeFail tn (chunkRows m f.rows)
              ⟨resetTable tn (dedupCols (List.map sanitize_column_name f.headers))
                  db.current,
                resetTable tn (dedupCols (List.map sanitize_column_name f.headers))
                  db.current⟩
              0 0 0 with
          | inr p =>
            rw [hp] at hf
            simp at hf
          | inl e =>
            cases e with
            | decodeErr d oo =>
              rw [hp] at hf
              dsimp only at hf ⊢
              cases hq : runWindows false f.writeFail tn (chunkRows m f.rows)
                  d 0 0 oo with
              | inr p2 =>
                rw [hq] at hf
                simp at hf
              | inl e2 =>
                cases e2 with
                | decodeErr d2 oo2 => rfl
                | writeErr d2 => rfl
            | writeErr d => rfl
        | false =>
          simp only [hh, Bool.false_eq_true, if_false] at hf ⊢
          cases hq : runWindows false f.writeFail tn (chunkRows m f.rows)
              ⟨resetTable tn (dedupCols (List.map sanitize_column_name f.headers))
                  db.current,
                resetTable tn (dedupCols (List.map sanitize_column_name f.headers))
                  db.current⟩
              0 0 0 with
          | inr p2 =>
            rw [hq] at hf
            simp at hf
          | inl e2 =>
            cases e2 with
            | decodeErr d2 oo2 => rfl
            | writeErr d2 => rfl

/-- C5: on any unrecoverable error mid-file the loader rolls back the
    file's in-flight, uncommitted table changes, reports a failure outcome
    for that file only, and the run continues with the next file.  In the
    full importer the failing df.to_sql INSERT is atomic and rolled back
    by pandas, so the freshly recreated table is left empty — none of the
    failed write's rows persist — while a file unreadable in every
    encoding leaves the store untouched; in the large-file importer a
    failing run ends with the in-transaction state equal to the committed
    state, so nothing uncommitted survives; and in both importers the
    per-file loop records one outcome per file, never aborting the run. -/
theorem claim_C5_isolation :
    (∀ (f : SrcFile) (tn : Str) (db : Db) (cols : List Str) (rows : List Row),
      readLoop f.reads = some (some (cols, rows)) → rows.isEmpty = false →
      f.writeFails = true →
      (import_csv_file f tn db).1 = false ∧
      (import_csv_file f tn db).2.current = (import_csv_file f tn db).2.committed ∧
      lookupTable tn (import_csv_file f tn db).2.current =
        some ⟨dedupCols (cols.map sanitize_column_name), []⟩) ∧
    (∀ (f : SrcFile) (tn : Str) (db : Db), sampleFails f = true →
      import_csv_file f tn db = (false, db)) ∧
    (∀ (m : Nat) (f : BigFile) (tn : Str) (db : Db),
      db.current = db.committed →
      (import_csv_in_batches m f tn db).1 = false →
      (import_csv_in_batches m f tn db).2.2.current =
        (import_csv_in_batches m f tn db).2.2.committed) ∧
    (∀ (files : List (SrcFile × Str)) (db : Db),
      (run_import_files files db).1.length = files.length) ∧
    (∀ (m : Nat) (files : List (BigFile × Str)) (db : Db),
      (run_large_files m files db).1.length = files.length) := by
  refine ⟨?_, ?_, importBatches_fail_state, ?_, ?_⟩
  · intro f tn db cols rows hr he hw
    unfold import_csv_file
    rw [hr]
    dsimp only
    simp [he, hw, lookup_reset]
  · intro f tn db h
    unfold import_csv_file
    unfold sampleFails at h
    cases hr : readLoop f.reads with
    | none => rfl
    | some o =>
      cases o with
      | none => rfl
      | some cr =>
        obtain ⟨cols, rows⟩ := cr
        rw [hr] at h
        have h2 : rows = [] := by simpa using h
        subst h2
        simp
  · intro files
    induction files with
    | nil =>
      intro db
      rfl
    | cons p rest ih =>
      intro db
      obtain ⟨f, tn⟩ := p
      simp [run_import_files, ih]
  · intro m files
    induction files with
    | nil =>
      intro db
      rfl
    | cons p rest ih =>
      intro db
      obtain ⟨f, tn⟩ := p
      simp [run_large_files, ih]

/-- C5 witness: a failing single INSERT in the full importer leaves the
    recreated table empty with nothing uncommitted, and a store error on
    the first window append makes the large-file importer fail with the
    in-transaction state equal to the committed state. -/
theorem claim_C5_witness :
    (readLoop srcWErr.reads = some (some ([['h']], [rowX, rowY])) ∧
      ([rowX, rowY] : List Row).isEmpty = false ∧
      srcWErr.writeFails = true ∧
      ((import_csv_file srcWErr tblT dbPre).1 = false ∧
        (import_csv_file srcWErr tblT dbPre).2.current =
          (import_csv_file srcWErr tblT dbPre).2.committed ∧
        lookupTable tblT (import_csv_file srcWErr tblT dbPre).2.current =
          some ⟨dedupCols ([['h']].map sanitize_column_name), []⟩)) ∧
    (dbPre.current = dbPre.committed ∧
      (import_csv_in_batches 0 fileWErr tblT dbPre).1 = false ∧
      (import_csv_in_batches 0 fileWErr tblT dbPre).2.2.current =
        (import_csv_in_batches 0 fileWErr tblT dbPre).2.2.committed) :=
  ⟨⟨by decide, by decide, by decide,
    claim_C5_isolation.1 srcWErr tblT dbPre [['h']] [rowX, rowY]
      (by decide) (by decide) (by decide)⟩,
   ⟨by decide, by decide,
    claim_C5_isolation.2.2.1 0 fileWErr tblT dbPre (by decide) (by decide)⟩⟩

/-- C1: the batch loader violates exactly-once persistence when the
    streamed pass falls back to latin-1 mid-file.  Evaluated at a two-row
    source whose first window is clean UTF-8 and whose second row is not,
    the loader reports success and a post-load count of three: the first
    pass appends the first window, dies on the second, and the latin-1
    retry re-appends the whole file without clearing the table or rolling
    back, so the first row is persisted twice.  (The reported count does
    equal the post-load count, and a full re-run after an interruption
    drops and recreates the table, so those parts of the claim hold; the
    exactly-once part is broken by this path.) -/
theorem claim_C1_fallback_duplicates :
    (import_csv_in_batches 0 fileC1 tblT dbEmpty).1 = true ∧
    (import_csv_in_batches 0 fileC1 tblT dbEmpty).2.1 = 3 ∧
    (lookupTable tblT
        (import_csv_in_batches 0 fileC1 tblT dbEmpty).2.2.current).map
      (fun t => t.rows) = some [rowX, rowX, rowY] ∧
    fileC1.rows.map (fun r => r.1) = [rowX, rowY] := by
  decide

theorem lexLe_total : ∀ (a b : Str), lexLe a b = true ∨ lexLe b a = true
  | [], _ => Or.inl rfl
  | _ :: _, [] => Or.inr rfl
  | a :: as, b :: bs => by
    by_cases h1 : a.toNat < b.toNat
    · left
      simp [lexLe, h1]
    · by_cases h2 : b.toNat < a.toNat
      · right
        simp [lexLe, h2]
      · rcases lexLe_total as bs with h | h
        · left
          simp [lexLe, h1, h2, h]
        · right
          simp [lexLe, h1, h2, h]

theorem lexLe_trans : ∀ (a b c : Str),
    lexLe a b = true → lexLe b c = true → lexLe a c = true
  | [], _, _ => by
    intro _ _
    rfl
  | _ :: _, [], _ => by
    intro h _
    exact absurd h (by simp [lexLe])
  | _ :: _, _ :: _, [] => by
    intro _ h
    exact absurd h (by simp [lexLe])
  | a :: as, b :: bs, c :: cs => by
    intro h1 h2
    simp only [lexLe] at h1 h2 ⊢
    by_cases hab : a.toNat < b.toNat
    · by_cases hbc : b.toNat < c.toNat
      · simp [show a.toNat < c.toNat by omega]
      · rw [if_neg hbc] at h2
        by_cases hcb : c.toNat < b.toNat
        · rw [if_pos hcb] at h2
          exact absurd h2 (by simp)
        · rw [if_neg hcb] at h2
          simp [show a.toNat < c.toNat by omega]
    · rw [if_neg hab] at h1
      by_cases hba : b.toNat < a.toNat
      · rw [if_pos hba] at h1
        exact absurd h1 (by simp)
      · rw [if_neg hba] at h1
        by_cases hbc : b.toNat < c.toNat
        · simp [show a.toNat < c.toNat by omega]
        · rw [if_neg hbc] at h2
          by_cases hcb : c.toNat < b.toNat
          · rw [if_pos hcb] at h2
            exact absurd h2 (by simp)
          · rw [if_neg hcb] at h2
            have hac : ¬(a.toNat < c.toNat) := by omega
            have hca : ¬(c.toNat < a.toNat) := by omega
            rw [if_neg hac, if_neg hca]
            exact lexLe_trans as bs cs h1 h2

theorem insertLe_perm (x : Str) : ∀ (l : List Str), (insertLe x l).Perm (x :: l)
  | [] => List.Perm.refl _
  | y :: ys => by
    unfold insertLe
    by_cases h : lexLe x y = true
    · rw [if_pos h]
    · rw [if_neg h]
      exact ((insertLe_perm x ys).cons y).trans (List.Perm.swap x y ys)

theorem sortStrs_perm : ∀ l : List Str, (sortStrs l).Perm l
  | [] => List.Perm.refl _
  | x :: xs => (insertLe_perm x (sortStrs xs)).trans ((sortStrs_perm xs).cons x)

theorem insertLe_sorted (x : Str) : ∀ (l : List Str),
    l.Pairwise (fun a b => lexLe a b = true) →
    (insertLe x l).Pairwise (fun a b => lexLe a b = true)
  | [], _ => by simp [insertLe]
  | y :: ys, h => by
    unfold insertLe
    rw [List.pairwise_cons] at h
    obtain ⟨hy, hys⟩ := h
    by_cases hxy : lexLe x y = true
    · rw [if_pos hxy]
      rw [List.pairwise_cons]
      refine ⟨?_, List.pairwise_cons.mpr ⟨hy, hys⟩⟩
      intro z hz
      rcases List.mem_cons.mp hz with hz | hz
      · rw [hz]
        exact hxy
      · exact lexLe_trans x y z hxy (hy z hz)
    · rw [if_neg hxy]
      have hyx : lexLe y x = true := by
        rcases lexLe_total x y with h | h
        · exact absurd h hxy
        · exact h
      rw [List.pairwise_cons]
      constructor
      · intro z hz
        have hz2 := (insertLe_perm x ys).mem_iff.mp hz
        rcases List.mem_cons.mp hz2 with hz3 | hz3
        · rw [hz3]
          exact hyx
        · exact hy z hz3
      · exact insertLe_sorted x ys hys

theorem sortStrs_sorted : ∀ l : List Str,
    (sortStrs l).Pairwise (fun a b => lexLe a b = true)
  | [] => List.Pairwise.nil
  | x :: xs => insertLe_sorted x (sortStrs xs) (sortStrs_sorted xs)

/-- C10: the presentation-layer reads are total.  load_table_from_db
    returns the empty frame when the database file is missing or the table
    is unknown, and otherwise the table's contents (full, or a row-limited
    prefix when the limit argument is truthy); get_available_tables
    returns the empty list when the database is missing and otherwise a
    lexicographically sorted permutation of the table names without the
    metadata table. -/
theorem claim_C10_reads :
    (∀ (dbFile : Option (List (Str × Table))) (tn : Str) (lim : Option Int),
      match dbFile with
      | none => load_table_from_db dbFile tn lim = emptyFrame
      | some s =>
        match lookupTable tn s with
        | none => load_table_from_db dbFile tn lim = emptyFrame
        | some t =>
          (load_table_from_db dbFile tn lim).cols = t.cols ∧
          ((load_table_from_db dbFile tn lim).rows = t.rows ∨
            ∃ n : Int, lim = some n ∧
              (load_table_from_db dbFile tn lim).rows = t.rows.take n.toNat)) ∧
    get_available_tables none = [] ∧
    (∀ s : List (Str × Table),
      (get_available_tables (some s)).Pairwise (fun a b => lexLe a b = true) ∧
      (get_available_tables (some s)).Perm
        ((s.map (fun p => p.1)).filter (fun n => decide (n ≠ metadataTableName))) ∧
      metadataTableName ∉ get_available_tables (some s)) := by
  refine ⟨?_, rfl, ?_⟩
  · intro dbFile tn lim
    cases dbFile with
    | none => rfl
    | some s =>
      cases ht : lookupTable tn s with
      | none =>
        simp only [ht, load_table_from_db, runSelect]
      | some t =>
        simp only [ht]
        cases lim with
        | none =>
          exact ⟨by simp [load_table_from_db, runSelect, ht],
            Or.inl (by simp [load_table_from_db, runSelect, ht])⟩
        | some n =>
          by_cases hn : n = 0
          · exact ⟨by simp [load_table_from_db, runSelect, ht, hn],
              Or.inl (by simp [load_table_from_db, runSelect, ht, hn])⟩
          · by_cases hpos : 0 ≤ n
            · refine ⟨by simp [load_table_from_db, runSelect, ht, hn],
                Or.inr ⟨n, rfl, ?_⟩⟩
              simp [load_table_from_db, runSelect, ht, hn, applyLimit, hpos]
            · refine ⟨by simp [load_table_from_db, runSelect, ht, hn],
                Or.inl ?_⟩
              simp [load_table_from_db, runSelect, ht, hn, applyLimit, hpos]
  · intro s
    have hgoal : get_available_tables (some s) =
        sortStrs ((s.map (fun p => p.1)).filter
          (fun n => decide (n ≠ metadataTableName))) := rfl
    rw [hgoal]
    refine ⟨sortStrs_sorted _, sortStrs_perm _, ?_⟩
    intro hmem
    have h2 := (sortStrs_perm _).mem_iff.mp hmem
    rw [List.mem_filter] at h2
    exact (of_decide_eq_true h2.2) rfl

end VCT
